import Mathlib

set_option maxHeartbeats 1000000

/-!
Verification of the Pracuj scraper (src/final.py) against its specification.

The program drives a headless browser; the browser is out of scope and is
abstracted into environments: the discoverer sees, for each successive
search-results page number, either a navigation failure, a selector wait
timeout, or a list of anchor elements (each with an optional href attribute);
the extractor sees, per selector, the result of the element queries.  All
repository logic (dedup, limit handling, field extraction, error handling,
spreadsheet assembly) is translated directly from final.py.
-/

namespace PracujScraper

/-- Module constant BASE_URL of final.py. -/
def BASE_URL : String := "https://www.pracuj.pl"

/-- Does the character list begin with the first list?  Model of
str.startswith restated on character lists. -/
def listStarts : List Char → List Char → Bool
  | [], _ => true
  | _ :: _, [] => false
  | p :: ps, c :: cs => p = c && listStarts ps cs

/-- Model of Python str.startswith. -/
def strStartsWith (s p : String) : Bool :=
  listStarts p.toList s.toList

/-- The characters Python str.strip removes (ASCII whitespace; the model
restricts Python to its ASCII whitespace set). -/
def pyIsSpace (c : Char) : Bool :=
  c = ' ' || c = '\t' || c = '\n' || c = '\r' || c = '\x0b' || c = '\x0c'

/-- Model of Python str.strip: drop whitespace from both ends. -/
def pyStrip (s : String) : String :=
  ⟨((s.toList.dropWhile pyIsSpace).reverse.dropWhile pyIsSpace).reverse⟩

/-- Model of Python sep.join on a list of strings. -/
def strJoin (sep : String) : List String → String
  | [] => ""
  | [x] => x
  | x :: y :: rest => x ++ sep ++ strJoin sep (y :: rest)

/-- Does the string carry a URI scheme (RFC 3986: an alpha followed by
alphanumerics or one of plus, dash, dot, then a colon)?  Used by the model of
the external urljoin to decide whether an href is already absolute. -/
def hasScheme (s : String) : Bool :=
  match s.toList.takeWhile (fun c => c ≠ ':') with
  | [] => false
  | c :: cs =>
    (c :: cs).length < s.toList.length && c.isAlpha &&
      cs.all (fun d => d.isAlphanum || d = '+' || d = '-' || d = '.')

/-- Modelled from the spec: urllib.parse.urljoin (external standard-library
function, not part of this repository), restricted to the fixed base
"https://www.pracuj.pl" (origin only, empty path).  A protocol-relative href
inherits the https scheme; a root-relative href is appended to the origin; any
other scheme-less href is joined below the root with a slash; an href carrying
its own scheme is returned unchanged; an empty href yields the base. -/
def urljoin (base href : String) : String :=
  if href = "" then base
  else if strStartsWith href "//" then "https:" ++ href
  else if strStartsWith href "/" then base ++ href
  else if hasScheme href then href
  else base ++ "/" ++ href

/-- Line 111 of final.py: `full_url = href if href.startswith("http") else urljoin(BASE_URL, href)`. -/
def resolveHref (href : String) : String :=
  if strStartsWith href "http" then href else urljoin BASE_URL href

/-- Outcome of one search-results page, as seen by get_job_links: the page.goto
call failed (timeout), the wait for the offer-link selector timed out, or a
list of link elements was returned, each with an optional href attribute. -/
inductive PageResult where
  | navFail : PageResult
  | selTimeout : PageResult
  | links : List (Option String) → PageResult

/-- The inner for-loop of get_job_links (final.py lines 108-118): walk the
link elements of one page, resolving each href and appending it to job_urls
if not already present, counting the new links; return immediately (third
component true) when a limit is set and the accumulated count reaches it.
limitHit is the early-return test of line 116 of final.py:
`limit is not None and len(job_urls) >= limit`. -/
def limitHit (limit : Option Int) (len : Nat) : Bool :=
  match limit with
  | some l => decide (l ≤ (len : Int))
  | none => false

def processLinks (limit : Option Int) :
    List (Option String) → List String → Nat → List String × Nat × Bool
  | [], acc, n => (acc, n, false)
  | none :: rest, acc, n => processLinks limit rest acc n
  | some href :: rest, acc, n =>
    let full_url := resolveHref href
    if full_url ∈ acc then
      processLinks limit rest acc n
    else
      if limitHit limit (acc ++ [full_url]).length then (acc ++ [full_url], n + 1, true)
      else processLinks limit rest (acc ++ [full_url]) (n + 1)

/-- The while-loop of get_job_links (final.py lines 88-123), driven by the list
of successive page outcomes.  Navigation failure, selector timeout, an empty
link list, or a page contributing zero new links each stop the loop and return
the accumulated URLs; reaching the limit returns mid-page.  Exhausting the
outcome list stands for navigation failing from that page on. -/
def getJobLinksLoop (limit : Option Int) : List PageResult → List String → List String
  | [], acc => acc
  | PageResult.navFail :: _, acc => acc
  | PageResult.selTimeout :: _, acc => acc
  | PageResult.links ls :: ps, acc =>
    if ls.isEmpty then acc
    else
      let r := processLinks limit ls acc 0
      if r.2.2 then r.1
      else if r.2.1 = 0 then r.1
      else getJobLinksLoop limit ps r.1

/-- get_job_links (final.py lines 78-126): a provided limit of at most zero
short-circuits to the empty list before any page is visited; otherwise the
pagination loop runs starting from an empty accumulator. -/
def get_job_links (pages : List PageResult) (limit : Option Int) : List String :=
  match limit with
  | some l => if l ≤ 0 then [] else getJobLinksLoop (some l) pages []
  | none => getJobLinksLoop none pages []

/-- All href attribute values present on a page. -/
def pageHrefs : PageResult → List String
  | PageResult.links ls => ls.filterMap id
  | _ => []

/-- All href attribute values encountered across a run of the discoverer. -/
def hrefsOf (pages : List PageResult) : List String :=
  pages.flatMap pageHrefs

/-- What the browser page reports to the extractor for one job URL:
whether goto succeeded, and, per selector string, the outcome of the two
element-query primitives.  query models page.query_selector followed by
element.text_content: an exception anywhere (error), no element (ok none), an
element whose text content is null (ok (some none)), or an element with text
(ok (some (some t))).  queryAll models page.query_selector_all followed by
text_content on each element; an exception is an error value, which the
Python code does not catch inside extract_bullets. -/
structure PageEnv where
  navOk : Bool
  query : String → Except String (Option (Option String))
  queryAll : String → Except String (List (Option String))

/-- A page environment answering every selector the same way; used to build
concrete browser situations. -/
def constEnv (nav : Bool) (q : Except String (Option (Option String)))
    (qa : Except String (List (Option String))) : PageEnv :=
  { navOk := nav, query := fun _ => q, queryAll := fun _ => qa }

/-- safe_text (final.py lines 138-143): look one element up; no element yields
"N/A"; a null text content makes .strip() raise, which the bare except turns
into "N/A", as it does any other exception; otherwise the trimmed text. -/
def safe_text (env : PageEnv) (selector : String) : String :=
  match env.query selector with
  | Except.error _ => "N/A"
  | Except.ok none => "N/A"
  | Except.ok (some none) => "N/A"
  | Except.ok (some (some t)) => pyStrip t

/-- The combined selector built by the f-string in extract_bullets. -/
def bulletsSelector (section_selector : String) : String :=
  section_selector ++ " li, " ++ section_selector ++ " p"

/-- extract_bullets (final.py lines 145-148): query all li/p descendants, trim
each text (null becomes ""), and join the nonempty ones with newlines; "N/A"
only when the item list itself is empty — the guard is `if texts`, the
unfiltered list.  A query exception propagates (no handler here). -/
def extract_bullets (env : PageEnv) (section_selector : String) :
    Except String String :=
  match env.queryAll (bulletsSelector section_selector) with
  | Except.error e => Except.error e
  | Except.ok items =>
    let texts := items.map (fun t => pyStrip (t.getD ""))
    Except.ok (if texts.isEmpty then "N/A"
               else strJoin "\n" (texts.filter (fun t => t ≠ "")))

/-- Which of the two extraction strategies a field uses. -/
inductive FieldKind where
  | single : FieldKind
  | bullets : FieldKind

/-- The fixed, ordered field list of scrape_job (final.py lines 150-172):
key, strategy, selector, exactly as in the source. -/
def fieldSpecs : List (String × FieldKind × String) :=
  [("Job Title", FieldKind.single, "[data-test=\x27text-positionName\x27]"),
   ("Employer", FieldKind.single, "[data-test=\x27text-employerName\x27]"),
   ("Location", FieldKind.single, "[data-test=\x27text-region\x27]"),
   ("Salary", FieldKind.single, "[data-test=\x27text-pay\x27]"),
   ("Posted Date", FieldKind.single, "[data-test=\x27text-publicationDate\x27]"),
   ("Description", FieldKind.bullets, "[data-test=\x27section-offerDescription\x27]"),
   ("Responsibilities", FieldKind.bullets, "[data-test=\x27section-responsibilities\x27]"),
   ("Requirements", FieldKind.bullets, "[data-test=\x27section-requirements\x27]"),
   ("Benefits", FieldKind.bullets, "[data-test=\x27section-benefits\x27]"),
   ("About Company", FieldKind.bullets, "[data-test=\x27section-about-us\x27]"),
   ("Contract Type", FieldKind.single, "[data-test=\x27sections-benefit-contracts\x27]"),
   ("Employment Type", FieldKind.single, "[data-test=\x27sections-benefit-employment-type-name\x27]"),
   ("Work Schedule", FieldKind.single, "[data-test=\x27sections-benefit-work-schedule\x27]"),
   ("Work Mode (Office)", FieldKind.single, "[data-test=\x27sections-benefit-work-modes-full-office\x27]"),
   ("Work Mode (Hybrid)", FieldKind.single, "[data-test=\x27sections-benefit-work-modes-hybrid\x27]"),
   ("Remote Recruitment", FieldKind.single, "[data-test=\x27sections-benefit-remote-recruitment\x27]"),
   ("Immediate Employment", FieldKind.single, "[data-test=\x27sections-benefit-immediate-employment\x27]"),
   ("Languages", FieldKind.single, "[data-test=\x27required-languages\x27]"),
   ("Eligibility", FieldKind.single, "[data-test=\x27eligibilities\x27]"),
   ("Address", FieldKind.single, "[data-test=\x27text-address\x27]"),
   ("Phone", FieldKind.single, "[data-test=\x27text-phoneNumber\x27]"),
   ("Recruitment Stages", FieldKind.bullets, "[data-test=\x27section-recruitment-stages\x27]"),
   ("Salary by Contract Type", FieldKind.bullets, "[data-test=\x27section-salaryPerContractType\x27]")]

/-- Extract one field value; only the bullets strategy can raise. -/
def extractField (env : PageEnv) : FieldKind → String → Except String String
  | FieldKind.single, sel => Except.ok (safe_text env sel)
  | FieldKind.bullets, sel => extract_bullets env sel

/-- Run the field assignments in order, stopping at the first exception:
returns the key/value pairs written before the failure and the exception
message, if any. -/
def runFields (env : PageEnv) :
    List (String × FieldKind × String) → List (String × String) × Option String
  | [] => ([], none)
  | (key, kind, sel) :: rest =>
    match extractField env kind sel with
    | Except.error e => ([], some e)
    | Except.ok v =>
      let r := runFields env rest
      ((key, v) :: r.1, r.2)

/-- The value inside an ok result, defaulting to "" for errors; used only to
describe the output of runFields on fields known to have succeeded. -/
def okValue : Except String String → String
  | Except.ok v => v
  | Except.error _ => ""

/-- scrape_job (final.py lines 130-178).  The job dict is an ordered
association list with distinct keys.  "URL" and "Scraped At" (the timestamp
string ts, datetime.now being external) are written first; a navigation
failure writes "Error" = "Timeout" and returns; otherwise the fields run in
order, and an exception during them is caught at this per-job boundary and
recorded as "Error" with its message. -/
def scrape_job (env : PageEnv) (url ts : String) : List (String × String) :=
  let base := [("URL", url), ("Scraped At", ts)]
  if env.navOk then
    let r := runFields env fieldSpecs
    match r.2 with
    | none => base ++ r.1
    | some e => base ++ r.1 ++ [("Error", e)]
  else base ++ [("Error", "Timeout")]

/-- Lexicographic comparison of character lists by code point, the order
Python sorted() uses on strings. -/
def listCharLe : List Char → List Char → Bool
  | [], _ => true
  | _ :: _, [] => false
  | a :: as, b :: bs =>
    if a.toNat = b.toNat then listCharLe as bs
    else decide (a.toNat < b.toNat)

/-- Model of the Python string order used by sorted(). -/
def pyStrLe (a b : String) : Bool :=
  listCharLe a.toList b.toList

/-- The Python string order as a proposition. -/
def strLe (a b : String) : Prop :=
  pyStrLe a b = true

instance : DecidableRel strLe :=
  fun a b => instDecidableEqBool (pyStrLe a b) true

instance : IsTotal String strLe where
  total a b := by
    show listCharLe a.toList b.toList = true ∨ listCharLe b.toList a.toList = true
    generalize a.toList = xs
    generalize b.toList = ys
    induction xs generalizing ys with
    | nil => exact Or.inl rfl
    | cons x xs ih =>
      cases ys with
      | nil => exact Or.inr rfl
      | cons y ys2 =>
        simp only [listCharLe]
        by_cases h : x.toNat = y.toNat
        · rw [if_pos h, if_pos h.symm]
          exact ih ys2
        · rw [if_neg h, if_neg (fun hh => h hh.symm)]
          rcases Nat.lt_or_ge x.toNat y.toNat with hlt | hge
          · exact Or.inl (by simpa using hlt)
          · exact Or.inr (by simpa using lt_of_le_of_ne hge (fun hh => h hh.symm))

instance : IsTrans String strLe where
  trans a b c hab hbc := by
    have H : ∀ (xs ys zs : List Char), listCharLe xs ys = true →
        listCharLe ys zs = true → listCharLe xs zs = true := by
      intro xs
      induction xs with
      | nil => intro ys zs h1 h2; rfl
      | cons x xs ih =>
        intro ys zs h1 h2
        cases ys with
        | nil => exact absurd h1 (by simp [listCharLe])
        | cons y ys2 =>
          cases zs with
          | nil => exact absurd h2 (by simp [listCharLe])
          | cons z zs2 =>
            simp only [listCharLe] at h1 h2 ⊢
            by_cases hxy : x.toNat = y.toNat
            · rw [if_pos hxy] at h1
              by_cases hyz : y.toNat = z.toNat
              · rw [if_pos hyz] at h2
                rw [if_pos (hxy.trans hyz)]
                exact ih ys2 zs2 h1 h2
              · rw [if_neg hyz] at h2
                have h2lt : y.toNat < z.toNat := by simpa using h2
                rw [if_neg (by omega : ¬ (x.toNat = z.toNat))]
                have : x.toNat < z.toNat := by omega
                simpa using this
            · rw [if_neg hxy] at h1
              have h1lt : x.toNat < y.toNat := by simpa using h1
              by_cases hyz : y.toNat = z.toNat
              · have : x.toNat < z.toNat := by omega
                rw [if_neg (by omega : ¬ (x.toNat = z.toNat))]
                simpa using this
              · rw [if_neg hyz] at h2
                have h2lt : y.toNat < z.toNat := by simpa using h2
                have : x.toNat < z.toNat := by omega
                rw [if_neg (by omega : ¬ (x.toNat = z.toNat))]
                simpa using this
    exact H a.toList b.toList c.toList hab hbc

/-- save_to_excel (final.py lines 181-189), modelling the sheet the pandas
DataFrame produces: the sheet name, the column list sorted(set(all keys)),
and one cell row per job in order.  pandas fills a missing key with NaN,
which openpyxl writes as an empty cell, modelled as "". -/
def save_to_excel (jobs : List (List (String × String))) :
    String × List String × List (List String) :=
  let all_keys :=
    List.insertionSort strLe ((jobs.flatMap (fun job => job.map Prod.fst)).dedup)
  ("Jobs", all_keys,
   jobs.map (fun job => all_keys.map (fun k => ((job.lookup k).getD ""))))

/-- The environment of one /scrape request: the search-page outcomes for the
discoverer, and, per job URL, the page environment its scrape_job call sees
and the timestamp taken at its start. -/
structure ScrapeEnv where
  pages : List PageResult
  jobEnv : String → PageEnv
  scrapedAt : String → String

/-- The JSON value under "full_jobs". -/
structure JobsWrapper where
  jobs : List (List (String × String))

/-- The JSON value under "urls_only". -/
structure UrlsWrapper where
  urls : List String

/-- The JSON-mode response body of the /scrape route (final.py lines
230-233). -/
structure ScrapeResponse where
  full_jobs : JobsWrapper
  urls_only : UrlsWrapper

/-- The scraping for-loop of the route (final.py lines 209-214): enumerate
from 1 and break once a set limit is exceeded (the redundant check). -/
def scrapeJobsLoop (env : ScrapeEnv) (limit : Option Int) :
    List String → Nat → List (List (String × String))
  | [], _ => []
  | url :: rest, idx =>
    match limit with
    | some l =>
      if l < (idx : Int) then []
      else scrape_job (env.jobEnv url) url (env.scrapedAt url)
             :: scrapeJobsLoop env limit rest (idx + 1)
    | none =>
      scrape_job (env.jobEnv url) url (env.scrapedAt url)
        :: scrapeJobsLoop env limit rest (idx + 1)

/-- The JSON path of the /scrape route (final.py lines 196-233): discover the
links, scrape each, and assemble the response body. -/
def scrape (env : ScrapeEnv) (limit : Option Int) : ScrapeResponse :=
  let job_urls := get_job_links env.pages limit
  let full_results := scrapeJobsLoop env limit job_urls 1
  { full_jobs := { jobs := full_results }, urls_only := { urls := job_urls } }

theorem get_job_links_eq_nil_of_nonpos (pages : List PageResult) (l : Int)
    (h : l ≤ 0) : get_job_links pages (some l) = [] := by
  simp [get_job_links, h]

/-- Claim C3: for every provided limit value at most zero the discoverer
returns the empty sequence; the result does not inspect the pages at all, so
no navigation is performed. -/
theorem get_job_links_nonpositive_limit (pages : List PageResult) (l : Int)
    (h : l ≤ 0) : get_job_links pages (some l) = [] :=
  get_job_links_eq_nil_of_nonpos pages l h

/-- Witness for get_job_links_nonpositive_limit at limit 0 and a nonempty
page list. -/
theorem get_job_links_nonpositive_limit_witness :
    get_job_links [PageResult.links [some "/offer1"]] (some 0) = [] :=
  get_job_links_nonpositive_limit [PageResult.links [some "/offer1"]] 0 (by decide)

theorem processLinks_nodup (limit : Option Int) :
    ∀ (ls : List (Option String)) (acc : List String) (n : Nat),
      acc.Nodup → (processLinks limit ls acc n).1.Nodup := by
  intro ls
  induction ls with
  | nil => intro acc n h; exact h
  | cons hd rest ih =>
    intro acc n h
    cases hd with
    | none => exact ih acc n h
    | some href =>
      simp only [processLinks]
      by_cases hmem : resolveHref href ∈ acc
      · rw [if_pos hmem]; exact ih acc n h
      · rw [if_neg hmem]
        have hnd : (acc ++ [resolveHref href]).Nodup := by
          rw [← List.concat_eq_append]
          exact List.Nodup.concat hmem h
        by_cases hlim : limitHit limit (acc ++ [resolveHref href]).length = true
        · rw [if_pos hlim]; exact hnd
        · rw [if_neg hlim]; exact ih _ _ hnd

theorem processLinks_mem (limit : Option Int) :
    ∀ (ls : List (Option String)) (acc : List String) (n : Nat) (u : String),
      u ∈ (processLinks limit ls acc n).1 →
        u ∈ acc ∨ ∃ href ∈ ls.filterMap id, u = resolveHref href := by
  intro ls
  induction ls with
  | nil => intro acc n u hu; exact Or.inl hu
  | cons hd rest ih =>
    intro acc n u hu
    cases hd with
    | none =>
      rcases ih acc n u hu with h | ⟨href, hh, he⟩
      · exact Or.inl h
      · exact Or.inr ⟨href, by simpa using hh, he⟩
    | some href0 =>
      have hstep : u ∈ acc ++ [resolveHref href0] →
          u ∈ acc ∨ ∃ href ∈ (some href0 :: rest).filterMap id, u = resolveHref href := by
        intro hmem
        rcases List.mem_append.mp hmem with h | h
        · exact Or.inl h
        · refine Or.inr ⟨href0, by simp, ?_⟩
          simpa using h
      have hrec : u ∈ (processLinks limit rest (acc ++ [resolveHref href0]) (n + 1)).1 →
          u ∈ acc ∨ ∃ href ∈ (some href0 :: rest).filterMap id, u = resolveHref href := by
        intro hmem
        rcases ih _ _ u hmem with h | ⟨href, hh, he⟩
        · exact hstep h
        · exact Or.inr ⟨href, by simpa using Or.inr hh, he⟩
      simp only [processLinks] at hu
      by_cases hmem : resolveHref href0 ∈ acc
      · rw [if_pos hmem] at hu
        rcases ih acc n u hu with h | ⟨href, hh, he⟩
        · exact Or.inl h
        · exact Or.inr ⟨href, by simpa using Or.inr hh, he⟩
      · rw [if_neg hmem] at hu
        by_cases hlim : limitHit limit (acc ++ [resolveHref href0]).length = true
        · rw [if_pos hlim] at hu
          exact hstep hu
        · rw [if_neg hlim] at hu
          exact hrec hu

theorem processLinks_append_reached (limit : Option Int) :
    ∀ (ls extra : List (Option String)) (acc a : List String) (n c : Nat),
      processLinks limit ls acc n = (a, c, true) →
      processLinks limit (ls ++ extra) acc n = (a, c, true) := by
  intro ls
  induction ls with
  | nil =>
    intro extra acc a n c h
    simp [processLinks, Prod.ext_iff] at h
  | cons hd rest ih =>
    intro extra acc a n c h
    cases hd with
    | none =>
      simp only [processLinks] at h
      simp only [List.cons_append, processLinks]
      exact ih extra acc a n c h
    | some href =>
      simp only [processLinks] at h
      simp only [List.cons_append, processLinks]
      by_cases hmem : resolveHref href ∈ acc
      · rw [if_pos hmem] at h ⊢
        exact ih extra acc a n c h
      · rw [if_neg hmem] at h ⊢
        by_cases hlim : limitHit limit (acc ++ [resolveHref href]).length = true
        · rw [if_pos hlim] at h ⊢
          exact h
        · rw [if_neg hlim] at h ⊢
          exact ih extra _ a _ c h

theorem limitHit_iff (k : Int) (len : Nat) :
    limitHit (some k) len = true ↔ k ≤ (len : Int) := by
  simp [limitHit]

theorem processLinks_length_spec (k : Int) :
    ∀ (ls : List (Option String)) (acc : List String) (n : Nat),
      ((acc.length : Int) < k) →
      (((processLinks (some k) ls acc n).2.2 = true →
         ((processLinks (some k) ls acc n).1.length : Int) = k) ∧
       ((processLinks (some k) ls acc n).2.2 = false →
         ((processLinks (some k) ls acc n).1.length : Int) < k)) := by
  intro ls
  induction ls with
  | nil =>
    intro acc n hacc
    constructor
    · intro h; simp [processLinks] at h
    · intro _; simpa [processLinks] using hacc
  | cons hd rest ih =>
    intro acc n hacc
    cases hd with
    | none =>
      simpa only [processLinks] using ih acc n hacc
    | some href =>
      simp only [processLinks]
      by_cases hmem : resolveHref href ∈ acc
      · rw [if_pos hmem]; exact ih acc n hacc
      · rw [if_neg hmem]
        by_cases hlim : limitHit (some k) (acc ++ [resolveHref href]).length = true
        · rw [if_pos hlim]
          rw [limitHit_iff] at hlim
          simp only [List.length_append, List.length_singleton] at hlim
          constructor
          · intro _
            simp only [List.length_append, List.length_singleton]
            push_cast at hlim ⊢
            omega
          · intro hfalse
            simp at hfalse
        · rw [if_neg hlim]
          refine ih _ _ ?_
          rw [limitHit_iff] at hlim
          simp only [List.length_append, List.length_singleton] at hlim ⊢
          push_cast at hlim ⊢
          omega

theorem getJobLinksLoop_navFail (limit : Option Int) (more : List PageResult) :
    ∀ (pages : List PageResult) (acc : List String),
      getJobLinksLoop limit (pages ++ PageResult.navFail :: more) acc
        = getJobLinksLoop limit pages acc := by
  intro pages
  induction pages with
  | nil => intro acc; rfl
  | cons p ps ih =>
    intro acc
    cases p with
    | navFail => rfl
    | selTimeout => rfl
    | links ls =>
      simp only [List.cons_append, getJobLinksLoop]
      split
      · rfl
      · split
        · rfl
        · split
          · rfl
          · exact ih _

/-- Claim C6: if navigation to a search-results page fails, the discoverer
returns exactly the URLs accumulated from the previously processed pages, as
an ordinary value (the function is total, so no exception is raised). -/
theorem get_job_links_navFail_partial (pages more : List PageResult)
    (limit : Option Int) :
    get_job_links (pages ++ PageResult.navFail :: more) limit
      = get_job_links pages limit := by
  cases limit with
  | none => exact getJobLinksLoop_navFail none more pages []
  | some l =>
    by_cases h : l ≤ 0
    · simp [get_job_links, h]
    · simp only [get_job_links, if_neg h]
      exact getJobLinksLoop_navFail (some l) more pages []

theorem getJobLinksLoop_nodup (limit : Option Int) :
    ∀ (pages : List PageResult) (acc : List String),
      acc.Nodup → (getJobLinksLoop limit pages acc).Nodup := by
  intro pages
  induction pages with
  | nil => intro acc h; exact h
  | cons p ps ih =>
    intro acc h
    cases p with
    | navFail => exact h
    | selTimeout => exact h
    | links ls =>
      simp only [getJobLinksLoop]
      by_cases hemp : ls.isEmpty = true
      · rw [if_pos hemp]; exact h
      · rw [if_neg hemp]
        by_cases hr : (processLinks limit ls acc 0).2.2 = true
        · rw [if_pos hr]; exact processLinks_nodup limit ls acc 0 h
        · rw [if_neg hr]
          by_cases hc : (processLinks limit ls acc 0).2.1 = 0
          · rw [if_pos hc]; exact processLinks_nodup limit ls acc 0 h
          · rw [if_neg hc]; exact ih _ (processLinks_nodup limit ls acc 0 h)

theorem hrefsOf_cons_links (ls : List (Option String)) (ps : List PageResult) :
    hrefsOf (PageResult.links ls :: ps) = ls.filterMap id ++ hrefsOf ps := by
  simp [hrefsOf, pageHrefs]

theorem getJobLinksLoop_mem (limit : Option Int) :
    ∀ (pages : List PageResult) (acc : List String) (u : String),
      u ∈ getJobLinksLoop limit pages acc →
        u ∈ acc ∨ ∃ href ∈ hrefsOf pages, u = resolveHref href := by
  intro pages
  induction pages with
  | nil => intro acc u hu; exact Or.inl hu
  | cons p ps ih =>
    intro acc u hu
    cases p with
    | navFail => exact Or.inl hu
    | selTimeout => exact Or.inl hu
    | links ls =>
      have hmono : (u ∈ acc ∨ ∃ href ∈ ls.filterMap id, u = resolveHref href) →
          u ∈ acc ∨ ∃ href ∈ hrefsOf (PageResult.links ls :: ps), u = resolveHref href := by
        rintro (h | ⟨href, hh, he⟩)
        · exact Or.inl h
        · refine Or.inr ⟨href, ?_, he⟩
          rw [hrefsOf_cons_links]
          exact List.mem_append.mpr (Or.inl hh)
      simp only [getJobLinksLoop] at hu
      by_cases hemp : ls.isEmpty = true
      · rw [if_pos hemp] at hu; exact Or.inl hu
      · rw [if_neg hemp] at hu
        by_cases hr : (processLinks limit ls acc 0).2.2 = true
        · rw [if_pos hr] at hu
          exact hmono (processLinks_mem limit ls acc 0 u hu)
        · rw [if_neg hr] at hu
          by_cases hc : (processLinks limit ls acc 0).2.1 = 0
          · rw [if_pos hc] at hu
            exact hmono (processLinks_mem limit ls acc 0 u hu)
          · rw [if_neg hc] at hu
            rcases ih _ u hu with h | ⟨href, hh, he⟩
            · exact hmono (processLinks_mem limit ls acc 0 u h)
            · refine Or.inr ⟨href, ?_, he⟩
              rw [hrefsOf_cons_links]
              exact List.mem_append.mpr (Or.inr hh)

theorem getJobLinksLoop_length (k : Int) :
    ∀ (pages : List PageResult) (acc : List String),
      ((acc.length : Int) < k) →
      ((getJobLinksLoop (some k) pages acc).length : Int) ≤ k := by
  intro pages
  induction pages with
  | nil => intro acc h; exact le_of_lt h
  | cons p ps ih =>
    intro acc h
    cases p with
    | navFail => exact le_of_lt h
    | selTimeout => exact le_of_lt h
    | links ls =>
      simp only [getJobLinksLoop]
      by_cases hemp : ls.isEmpty = true
      · rw [if_pos hemp]; exact le_of_lt h
      · rw [if_neg hemp]
        by_cases hr : (processLinks (some k) ls acc 0).2.2 = true
        · rw [if_pos hr]
          exact le_of_eq ((processLinks_length_spec k ls acc 0 h).1 hr)
        · rw [if_neg hr]
          have hlt := (processLinks_length_spec k ls acc 0 h).2 (by simpa using hr)
          by_cases hc : (processLinks (some k) ls acc 0).2.1 = 0
          · rw [if_pos hc]; exact le_of_lt hlt
          · rw [if_neg hc]; exact ih _ hlt

theorem getJobLinksLoop_reached_ext (k : Int) :
    ∀ (pages : List PageResult) (ls extra : List (Option String))
      (more : List PageResult) (acc : List String),
      ((acc.length : Int) < k) →
      ((getJobLinksLoop (some k) (pages ++ [PageResult.links ls]) acc).length : Int) = k →
      getJobLinksLoop (some k) (pages ++ PageResult.links (ls ++ extra) :: more) acc
        = getJobLinksLoop (some k) (pages ++ [PageResult.links ls]) acc := by
  intro pages
  induction pages with
  | nil =>
    intro ls extra more acc hacc hlen
    simp only [List.nil_append, getJobLinksLoop] at hlen ⊢
    by_cases hemp : ls.isEmpty = true
    · rw [if_pos hemp] at hlen
      exfalso; omega
    · have hemp2 : ¬ ((ls ++ extra).isEmpty = true) := by
        cases ls with
        | nil => exact absurd rfl hemp
        | cons a as => simp
      rw [if_neg hemp] at hlen
      rw [if_neg hemp2, if_neg hemp]
      rcases hE : processLinks (some k) ls acc 0 with ⟨a, c, b⟩
      cases b with
      | true =>
        have hEx := processLinks_append_reached (some k) ls extra acc a 0 c hE
        rw [hEx]
        rfl
      | false =>
        exfalso
        have hlt : ((a.length : Int) < k) := by
          have h0 := (processLinks_length_spec k ls acc 0 hacc).2 (by rw [hE])
          rw [hE] at h0
          exact h0
        rw [hE] at hlen
        have hlen2 : (((if c = 0 then a else a).length : Int) = k) := hlen
        by_cases hc : c = 0
        · rw [if_pos hc] at hlen2; omega
        · rw [if_neg hc] at hlen2; omega
  | cons p ps ih =>
    intro ls extra more acc hacc hlen
    cases p with
    | navFail => rfl
    | selTimeout => rfl
    | links ls0 =>
      simp only [List.cons_append, getJobLinksLoop] at hlen ⊢
      by_cases hemp0 : ls0.isEmpty = true
      · rw [if_pos hemp0, if_pos hemp0]
      · rw [if_neg hemp0] at hlen
        rw [if_neg hemp0, if_neg hemp0]
        rcases hE0 : processLinks (some k) ls0 acc 0 with ⟨a0, c0, b0⟩
        cases b0 with
        | true => rfl
        | false =>
          have hlt : ((a0.length : Int) < k) := by
            have h0 := (processLinks_length_spec k ls0 acc 0 hacc).2 (by rw [hE0])
            rw [hE0] at h0
            exact h0
          rw [hE0] at hlen
          have hlen2 : (((if c0 = 0 then a0
              else getJobLinksLoop (some k) (ps ++ [PageResult.links ls]) a0).length : Int) = k) :=
            hlen
          show (if c0 = 0 then a0
              else getJobLinksLoop (some k) (ps ++ PageResult.links (ls ++ extra) :: more) a0)
            = (if c0 = 0 then a0
              else getJobLinksLoop (some k) (ps ++ [PageResult.links ls]) a0)
          by_cases hc0 : c0 = 0
          · rw [if_pos hc0, if_pos hc0]
          · rw [if_neg hc0] at hlen2
            rw [if_neg hc0, if_neg hc0]
            exact ih ls extra more a0 hlt hlen2

/-- Claim C4: with a positive limit k the discoverer returns at most k URLs,
and once the k-th unique URL has been appended it returns immediately: links
remaining on the current page, and any further pages, leave the result
unchanged. -/
theorem get_job_links_respects_limit (k : Int) (hk : 0 < k)
    (pages more : List PageResult) (ls extra : List (Option String)) :
    ((get_job_links pages (some k)).length : Int) ≤ k ∧
    (((get_job_links (pages ++ [PageResult.links ls]) (some k)).length : Int) = k →
      get_job_links (pages ++ PageResult.links (ls ++ extra) :: more) (some k)
        = get_job_links (pages ++ [PageResult.links ls]) (some k)) := by
  have hk0 : ¬ (k ≤ 0) := not_le.mpr hk
  constructor
  · simp only [get_job_links, if_neg hk0]
    exact getJobLinksLoop_length k pages [] (by simpa using hk)
  · intro hlen
    simp only [get_job_links, if_neg hk0] at hlen ⊢
    exact getJobLinksLoop_reached_ext k pages ls extra more [] (by simpa using hk) hlen

/-- Witness for get_job_links_respects_limit: limit 2, one link found on the
first page and the second of three links on the second page reaching the
limit; the remaining link, a further link and a further page change
nothing. -/
theorem get_job_links_respects_limit_witness :
    ((get_job_links [PageResult.links [some "/x"]] (some 2)).length : Int) ≤ 2 ∧
    get_job_links ([PageResult.links [some "/x"]]
        ++ PageResult.links ([some "/a", some "/b", some "/c"] ++ [some "/d"])
        :: [PageResult.navFail]) (some 2)
      = get_job_links ([PageResult.links [some "/x"]]
          ++ [PageResult.links [some "/a", some "/b", some "/c"]]) (some 2) :=
  ⟨(get_job_links_respects_limit 2 (by decide) [PageResult.links [some "/x"]]
      [PageResult.navFail] [some "/a", some "/b", some "/c"] [some "/d"]).1,
   (get_job_links_respects_limit 2 (by decide) [PageResult.links [some "/x"]]
      [PageResult.navFail] [some "/a", some "/b", some "/c"] [some "/d"]).2 rfl⟩

/-- Claim C5 counterexample: the href "httpx/job1" is relative (it carries no
URI scheme), yet the discoverer appends it verbatim, because line 111 of
final.py keeps any href that starts with the four characters "http"; the
appended URL is not absolute and is not prefixed by the site base. -/
theorem get_job_links_relative_href_counterexample :
    get_job_links [PageResult.links [some "httpx/job1"]] none = ["httpx/job1"] ∧
    hasScheme "httpx/job1" = false ∧
    strStartsWith "httpx/job1" BASE_URL = false :=
  ⟨rfl, rfl, rfl⟩

theorem processLinks_sublist (limit : Option Int) :
    ∀ (ls : List (Option String)) (acc : List String) (n : Nat),
      ∃ tail, (processLinks limit ls acc n).1 = acc ++ tail ∧
        List.Sublist tail ((ls.filterMap id).map resolveHref) := by
  intro ls
  induction ls with
  | nil => intro acc n; exact ⟨[], by simp [processLinks], List.nil_sublist _⟩
  | cons hd rest ih =>
    intro acc n
    cases hd with
    | none =>
      obtain ⟨tail, he, hs⟩ := ih acc n
      exact ⟨tail, he, by simpa using hs⟩
    | some href =>
      simp only [processLinks]
      have hmapcons : ((some href :: rest).filterMap id).map resolveHref
          = resolveHref href :: (rest.filterMap id).map resolveHref := by
        simp
      by_cases hmem : resolveHref href ∈ acc
      · rw [if_pos hmem]
        obtain ⟨tail, he, hs⟩ := ih acc n
        refine ⟨tail, he, ?_⟩
        rw [hmapcons]
        exact List.Sublist.cons _ hs
      · rw [if_neg hmem]
        by_cases hlim : limitHit limit (acc ++ [resolveHref href]).length = true
        · rw [if_pos hlim]
          refine ⟨[resolveHref href], rfl, ?_⟩
          rw [hmapcons]
          exact List.Sublist.cons₂ _ (List.nil_sublist _)
        · rw [if_neg hlim]
          obtain ⟨tail, he, hs⟩ := ih (acc ++ [resolveHref href]) (n + 1)
          refine ⟨resolveHref href :: tail, ?_, ?_⟩
          · rw [he]; simp
          · rw [hmapcons]
            exact List.Sublist.cons₂ _ hs

theorem getJobLinksLoop_sublist (limit : Option Int) :
    ∀ (pages : List PageResult) (acc : List String),
      ∃ tail, getJobLinksLoop limit pages acc = acc ++ tail ∧
        List.Sublist tail ((hrefsOf pages).map resolveHref) := by
  intro pages
  induction pages with
  | nil => intro acc; exact ⟨[], by simp [getJobLinksLoop], List.nil_sublist _⟩
  | cons p ps ih =>
    intro acc
    cases p with
    | navFail => exact ⟨[], by simp [getJobLinksLoop], List.nil_sublist _⟩
    | selTimeout => exact ⟨[], by simp [getJobLinksLoop], List.nil_sublist _⟩
    | links ls =>
      have hsplit : (hrefsOf (PageResult.links ls :: ps)).map resolveHref
          = (ls.filterMap id).map resolveHref ++ (hrefsOf ps).map resolveHref := by
        rw [hrefsOf_cons_links, List.map_append]
      simp only [getJobLinksLoop]
      by_cases hemp : ls.isEmpty = true
      · rw [if_pos hemp]
        exact ⟨[], by simp, List.nil_sublist _⟩
      · rw [if_neg hemp]
        obtain ⟨tailA, heA, hsA⟩ := processLinks_sublist limit ls acc 0
        have hsA2 : List.Sublist tailA
            ((hrefsOf (PageResult.links ls :: ps)).map resolveHref) := by
          rw [hsplit]
          exact hsA.trans (List.sublist_append_left _ _)
        by_cases hr : (processLinks limit ls acc 0).2.2 = true
        · rw [if_pos hr]
          exact ⟨tailA, heA, hsA2⟩
        · rw [if_neg hr]
          by_cases hc : (processLinks limit ls acc 0).2.1 = 0
          · rw [if_pos hc]
            exact ⟨tailA, heA, hsA2⟩
          · rw [if_neg hc]
            obtain ⟨tailB, heB, hsB⟩ := ih (processLinks limit ls acc 0).1
            refine ⟨tailA ++ tailB, ?_, ?_⟩
            · rw [heB, heA, List.append_assoc]
            · rw [hsplit]
              exact List.Sublist.append hsA hsB

/-- Claim C5, amended: the discoverer never returns duplicate URLs (exact
string match), discovery order is preserved — the returned sequence is a
sublist of the resolved hrefs in encounter order, so each URL appears at the
position of its first discovery — every returned URL is the resolution of
some encountered href, and every href that does not start with the literal
"http" is resolved against the site base via urljoin — in particular a
root-relative href becomes the base followed by the href.  Hrefs that do
start with "http" are appended verbatim. -/
theorem get_job_links_dedup_resolve (pages : List PageResult) (limit : Option Int) :
    (get_job_links pages limit).Nodup ∧
    List.Sublist (get_job_links pages limit) ((hrefsOf pages).map resolveHref) ∧
    (∀ u ∈ get_job_links pages limit, ∃ href ∈ hrefsOf pages, u = resolveHref href) ∧
    (∀ href : String, strStartsWith href "http" = false →
      resolveHref href = urljoin BASE_URL href) ∧
    (∀ href : String, strStartsWith href "/" = true → strStartsWith href "//" = false →
      urljoin BASE_URL href = BASE_URL ++ href) := by
  refine ⟨?_, ?_, ?_, ?_, ?_⟩
  · cases limit with
    | none => exact getJobLinksLoop_nodup none pages [] List.nodup_nil
    | some l =>
      by_cases h : l ≤ 0
      · simp [get_job_links, h]
      · simp only [get_job_links, if_neg h]
        exact getJobLinksLoop_nodup (some l) pages [] List.nodup_nil
  · cases limit with
    | none =>
      obtain ⟨tail, he, hs⟩ := getJobLinksLoop_sublist none pages []
      rw [show get_job_links pages none = getJobLinksLoop none pages [] from rfl, he]
      simpa using hs
    | some l =>
      by_cases h : l ≤ 0
      · rw [get_job_links_eq_nil_of_nonpos pages l h]
        exact List.nil_sublist _
      · obtain ⟨tail, he, hs⟩ := getJobLinksLoop_sublist (some l) pages []
        rw [show get_job_links pages (some l) = getJobLinksLoop (some l) pages [] from by
              simp [get_job_links, h]]
        rw [he]
        simpa using hs
  · intro u hu
    have hloop : ∀ (lim : Option Int), u ∈ getJobLinksLoop lim pages [] →
        ∃ href ∈ hrefsOf pages, u = resolveHref href := by
      intro lim hmem
      rcases getJobLinksLoop_mem lim pages [] u hmem with h | h
      · exact absurd h (List.not_mem_nil u)
      · exact h
    cases limit with
    | none => exact hloop none hu
    | some l =>
      by_cases h : l ≤ 0
      · rw [get_job_links_eq_nil_of_nonpos pages l h] at hu
        exact absurd hu (List.not_mem_nil u)
      · simp only [get_job_links, if_neg h] at hu
        exact hloop (some l) hu
  · intro href h
    simp [resolveHref, h]
  · intro href h1 h2
    have hne : ¬ (href = "") := by
      intro he
      rw [he] at h1
      exact absurd h1 (by decide)
    simp [urljoin, hne, h1, h2]

/-- Witness for get_job_links_dedup_resolve: a page repeating the same href
and adding a root-relative one; the output has no duplicates, is a sublist of
the resolved hrefs in encounter order, each URL is a resolved href, and "/a"
resolves to the base followed by "/a". -/
theorem get_job_links_dedup_resolve_witness :
    (get_job_links [PageResult.links [some "/a", some "/a", some "/b"]] none).Nodup ∧
    List.Sublist (get_job_links [PageResult.links [some "/a", some "/a", some "/b"]] none)
      ((hrefsOf [PageResult.links [some "/a", some "/a", some "/b"]]).map resolveHref) ∧
    (∃ href ∈ hrefsOf [PageResult.links [some "/a", some "/a", some "/b"]],
      "https://www.pracuj.pl/a" = resolveHref href) ∧
    resolveHref "/a" = urljoin BASE_URL "/a" ∧
    urljoin BASE_URL "/a" = BASE_URL ++ "/a" := by
  obtain ⟨h1, h2, h3, h4, h5⟩ :=
    get_job_links_dedup_resolve [PageResult.links [some "/a", some "/a", some "/b"]] none
  exact ⟨h1, h2, h3 "https://www.pracuj.pl/a" (by decide), h4 "/a" rfl, h5 "/a" rfl rfl⟩

/-- Claim C1 counterexample: a benefits section with two children whose text
is only whitespace; extract_bullets returns the empty string, not "N/A",
because the guard on line 148 of final.py tests the unfiltered text list. -/
theorem extract_bullets_whitespace_counterexample :
    extract_bullets (constEnv true (Except.ok none) (Except.ok [some "   ", some "\t"]))
        "[data-test=\x27section-benefits\x27]" = Except.ok "" ∧
    ("" : String) ≠ "N/A" :=
  ⟨rfl, by decide⟩

/-- Claim C1, amended: a single-value field whose selector matches no element
gets "N/A"; a multi-value field whose section query returns no items at all
gets "N/A"; but a multi-value field whose items all have empty
(whitespace-only) text gets the empty string, not "N/A". -/
theorem field_missing_defaults (env1 env2 env3 : PageEnv) (sel : String)
    (items : List (Option String))
    (h1 : env1.query sel = Except.ok none)
    (h2 : env2.queryAll (bulletsSelector sel) = Except.ok [])
    (h3 : env3.queryAll (bulletsSelector sel) = Except.ok items)
    (h4 : items ≠ [])
    (h5 : ∀ t ∈ items, pyStrip (t.getD "") = "") :
    safe_text env1 sel = "N/A" ∧
    extract_bullets env2 sel = Except.ok "N/A" ∧
    extract_bullets env3 sel = Except.ok "" := by
  refine ⟨by simp [safe_text, h1], by simp [extract_bullets, h2], ?_⟩
  simp only [extract_bullets, h3]
  have hempty : (items.map (fun t => pyStrip (t.getD ""))).isEmpty = false := by
    cases items with
    | nil => exact absurd rfl h4
    | cons a as => rfl
  rw [hempty]
  rw [if_neg (by decide : ¬ (false = true))]
  have hfilter : (items.map (fun t => pyStrip (t.getD ""))).filter
      (fun t => t ≠ "") = [] := by
    rw [List.filter_eq_nil_iff]
    intro t ht
    rcases List.mem_map.mp ht with ⟨x, hx, he⟩
    rw [← he]
    simp [h5 x hx]
  rw [hfilter]
  rfl

/-- Witness for field_missing_defaults: a missing element, an empty section
and a section of two whitespace-only items. -/
theorem field_missing_defaults_witness :
    safe_text (constEnv true (Except.ok none) (Except.ok []))
        "[data-test=\x27text-pay\x27]" = "N/A" ∧
    extract_bullets (constEnv true (Except.ok none) (Except.ok []))
        "[data-test=\x27text-pay\x27]" = Except.ok "N/A" ∧
    extract_bullets (constEnv true (Except.ok none) (Except.ok [some "   ", some ""]))
        "[data-test=\x27text-pay\x27]" = Except.ok "" := by
  obtain ⟨h1, h2, h3⟩ := field_missing_defaults
    (constEnv true (Except.ok none) (Except.ok []))
    (constEnv true (Except.ok none) (Except.ok []))
    (constEnv true (Except.ok none) (Except.ok [some "   ", some ""]))
    "[data-test=\x27text-pay\x27]" [some "   ", some ""]
    rfl rfl rfl (by decide) (by decide)
  exact ⟨h1, h2, h3⟩

/-- Claim C2: for every URL the extractor returns a record carrying at least
the keys "URL" and "Scraped At", and when navigation fails the record is
exactly URL, Scraped At, Error = "Timeout", with no other field
attempted. -/
theorem scrape_job_base_fields (env : PageEnv) (url ts : String) :
    "URL" ∈ (scrape_job env url ts).map Prod.fst ∧
    "Scraped At" ∈ (scrape_job env url ts).map Prod.fst ∧
    (env.navOk = false →
      scrape_job env url ts = [("URL", url), ("Scraped At", ts), ("Error", "Timeout")]) := by
  cases hnav : env.navOk with
  | false =>
    have hrec : scrape_job env url ts
        = [("URL", url), ("Scraped At", ts), ("Error", "Timeout")] := by
      simp [scrape_job, hnav]
    rw [hrec]
    exact ⟨by simp, by simp, fun _ => rfl⟩
  | true =>
    refine ⟨?_, ?_, fun hf => absurd hf (by decide)⟩
    · simp only [scrape_job, hnav, if_true]
      cases hr : (runFields env fieldSpecs).2 <;> simp
    · simp only [scrape_job, hnav, if_true]
      cases hr : (runFields env fieldSpecs).2 <;> simp

/-- Witness for scrape_job_base_fields at a timed-out navigation. -/
theorem scrape_job_base_fields_witness :
    "URL" ∈ (scrape_job (constEnv false (Except.ok none) (Except.ok []))
        "https://www.pracuj.pl/praca/offer1" "2024-01-01 00:00:00").map Prod.fst ∧
    "Scraped At" ∈ (scrape_job (constEnv false (Except.ok none) (Except.ok []))
        "https://www.pracuj.pl/praca/offer1" "2024-01-01 00:00:00").map Prod.fst ∧
    scrape_job (constEnv false (Except.ok none) (Except.ok []))
        "https://www.pracuj.pl/praca/offer1" "2024-01-01 00:00:00"
      = [("URL", "https://www.pracuj.pl/praca/offer1"),
         ("Scraped At", "2024-01-01 00:00:00"), ("Error", "Timeout")] := by
  obtain ⟨h1, h2, h3⟩ := scrape_job_base_fields (constEnv false (Except.ok none) (Except.ok []))
    "https://www.pracuj.pl/praca/offer1" "2024-01-01 00:00:00"
  exact ⟨h1, h2, h3 rfl⟩

theorem runFields_error_split (env : PageEnv) :
    ∀ (specs : List (String × FieldKind × String)) (e : String),
      (runFields env specs).2 = some e →
      ∃ pre key kind sel rest,
        specs = pre ++ (key, kind, sel) :: rest ∧
        (∀ p ∈ pre, ∃ v, extractField env p.2.1 p.2.2 = Except.ok v) ∧
        extractField env kind sel = Except.error e ∧
        (runFields env specs).1
          = pre.map (fun p => (p.1, okValue (extractField env p.2.1 p.2.2))) := by
  intro specs
  induction specs with
  | nil => intro e h; simp [runFields] at h
  | cons f rest ih =>
    intro e h
    obtain ⟨key, kind, sel⟩ := f
    cases hx : extractField env kind sel with
    | error e0 =>
      have he : e0 = e := by
        have h2 : (runFields env ((key, kind, sel) :: rest)).2 = some e0 := by
          simp [runFields, hx]
        rw [h2] at h
        exact Option.some.inj h
      refine ⟨[], key, kind, sel, rest, by simp, by simp, ?_, ?_⟩
      · rw [hx, he]
      · simp [runFields, hx]
    | ok v =>
      have hrec : (runFields env rest).2 = some e := by
        simpa [runFields, hx] using h
      obtain ⟨pre, key2, kind2, sel2, rest2, hs, hok, herr2, hfields⟩ := ih e hrec
      refine ⟨(key, kind, sel) :: pre, key2, kind2, sel2, rest2, ?_, ?_, herr2, ?_⟩
      · rw [hs]; rfl
      · intro p hp
        rcases List.mem_cons.mp hp with h1 | h1
        · rw [h1]; exact ⟨v, hx⟩
        · exact hok p h1
      · simp only [runFields, hx, List.map_cons]
        rw [hfields]
        simp [okValue, hx]

/-- Claim C8: when navigation succeeded but some field extraction raises (the
first failing field), scrape_job catches the exception at the per-job
boundary: the record is URL and Scraped At, then exactly the fields extracted
before the failure, then Error carrying the exception message — the
exception does not propagate. -/
theorem scrape_job_error_boundary (env : PageEnv) (url ts e : String)
    (hnav : env.navOk = true)
    (herr : (runFields env fieldSpecs).2 = some e) :
    ∃ pre key kind sel rest,
      fieldSpecs = pre ++ (key, kind, sel) :: rest ∧
      (∀ p ∈ pre, ∃ v, extractField env p.2.1 p.2.2 = Except.ok v) ∧
      extractField env kind sel = Except.error e ∧
      scrape_job env url ts
        = [("URL", url), ("Scraped At", ts)]
            ++ pre.map (fun p => (p.1, okValue (extractField env p.2.1 p.2.2)))
            ++ [("Error", e)] := by
  obtain ⟨pre, key, kind, sel, rest, hs, hok, herr2, hfields⟩ :=
    runFields_error_split env fieldSpecs e herr
  refine ⟨pre, key, kind, sel, rest, hs, hok, herr2, ?_⟩
  simp [scrape_job, hnav, herr, hfields]

/-- Witness for scrape_job_error_boundary: every single-element query finds
text while the bulk query raises "boom"; the first multi-value field
(Description, the sixth field) fails, so the record has the five fields
before it plus the error. -/
theorem scrape_job_error_boundary_witness :
    (constEnv true (Except.ok (some (some " v "))) (Except.error "boom")).navOk = true ∧
    ∃ pre key kind sel rest,
      fieldSpecs = pre ++ (key, kind, sel) :: rest ∧
      (∀ p ∈ pre, ∃ v, extractField
        (constEnv true (Except.ok (some (some " v "))) (Except.error "boom"))
        p.2.1 p.2.2 = Except.ok v) ∧
      extractField (constEnv true (Except.ok (some (some " v "))) (Except.error "boom"))
        kind sel = Except.error "boom" ∧
      scrape_job (constEnv true (Except.ok (some (some " v "))) (Except.error "boom"))
          "https://www.pracuj.pl/praca/offer1" "2024-01-01 00:00:00"
        = [("URL", "https://www.pracuj.pl/praca/offer1"),
           ("Scraped At", "2024-01-01 00:00:00")]
            ++ pre.map (fun p => (p.1, okValue (extractField
                 (constEnv true (Except.ok (some (some " v "))) (Except.error "boom"))
                 p.2.1 p.2.2)))
            ++ [("Error", "boom")] :=
  ⟨rfl, scrape_job_error_boundary
    (constEnv true (Except.ok (some (some " v "))) (Except.error "boom"))
    "https://www.pracuj.pl/praca/offer1" "2024-01-01 00:00:00" "boom" rfl rfl⟩

/-- Claim C10 counterexample: extract_bullets has no exception handler; when
its element query raises (modelled by an error outcome), extract_bullets
propagates the exception instead of returning a string, so it is not total
on its own — only the per-job handler contains it. -/
theorem extract_bullets_raises_counterexample :
    extract_bullets (constEnv true (Except.ok none) (Except.error "Page closed"))
        "[data-test=\x27section-benefits\x27]" = Except.error "Page closed" :=
  rfl

/-- Claim C10, amended: safe_text is total and never raises — an exception
anywhere inside it and a found element whose text content is null both yield
"N/A"; extract_bullets returns a string whenever its element query succeeds
but propagates a query exception to the per-job boundary; values produced by
either helper are strings. -/
theorem helpers_totality (env1 env2 env3 env4 : PageEnv) (sel e1 e4 : String)
    (items : List (Option String))
    (h1 : env1.query sel = Except.error e1)
    (h2 : env2.query sel = Except.ok (some none))
    (h3 : env3.queryAll (bulletsSelector sel) = Except.ok items)
    (h4 : env4.queryAll (bulletsSelector sel) = Except.error e4) :
    safe_text env1 sel = "N/A" ∧
    safe_text env2 sel = "N/A" ∧
    (∃ s : String, extract_bullets env3 sel = Except.ok s) ∧
    extract_bullets env4 sel = Except.error e4 := by
  refine ⟨by simp [safe_text, h1], by simp [safe_text, h2], ?_,
    by simp [extract_bullets, h4]⟩
  simp only [extract_bullets, h3]
  exact ⟨_, rfl⟩

/-- Witness for helpers_totality on concrete environments. -/
theorem helpers_totality_witness :
    safe_text (constEnv true (Except.error "gone") (Except.ok []))
        "[data-test=\x27text-pay\x27]" = "N/A" ∧
    safe_text (constEnv true (Except.ok (some none)) (Except.ok []))
        "[data-test=\x27text-pay\x27]" = "N/A" ∧
    (∃ s : String, extract_bullets (constEnv true (Except.ok none) (Except.ok [some "a"]))
        "[data-test=\x27text-pay\x27]" = Except.ok s) ∧
    extract_bullets (constEnv true (Except.ok none) (Except.error "gone"))
        "[data-test=\x27text-pay\x27]" = Except.error "gone" := by
  obtain ⟨h1, h2, h3, h4⟩ := helpers_totality
    (constEnv true (Except.error "gone") (Except.ok []))
    (constEnv true (Except.ok (some none)) (Except.ok []))
    (constEnv true (Except.ok none) (Except.ok [some "a"]))
    (constEnv true (Except.ok none) (Except.error "gone"))
    "[data-test=\x27text-pay\x27]" "gone" "gone" [some "a"]
    rfl rfl rfl rfl
  exact ⟨h1, h2, h3, h4⟩

theorem lookup_eq_none_of_not_mem_keys (k : String) :
    ∀ (l : List (String × String)), k ∉ l.map Prod.fst → l.lookup k = none := by
  intro l
  induction l with
  | nil => intro _; rfl
  | cons p rest ih =>
    intro h
    obtain ⟨a, b⟩ := p
    simp only [List.map_cons, List.mem_cons] at h
    push_neg at h
    have hbeq : (k == a) = false := beq_eq_false_iff_ne.mpr h.1
    simp [List.lookup, hbeq, ih h.2]

/-- Claim C7: the Excel writer produces the sheet "Jobs" whose column list is
the union of all keys across the input records, sorted (Python string order)
and without repetition; there is exactly one row per record, in order, whose
cells follow the column list by key lookup; a key a record lacks looks up to
none, so its cell is empty. -/
theorem save_to_excel_shape (jobs : List (List (String × String)))
    (i : Nat) (hi : i < jobs.length) (k : String) :
    (save_to_excel jobs).1 = "Jobs" ∧
    List.Sorted strLe (save_to_excel jobs).2.1 ∧
    (save_to_excel jobs).2.1.Nodup ∧
    (k ∈ (save_to_excel jobs).2.1 ↔ ∃ job ∈ jobs, k ∈ job.map Prod.fst) ∧
    (save_to_excel jobs).2.2.length = jobs.length ∧
    (∃ hr : i < (save_to_excel jobs).2.2.length,
      (save_to_excel jobs).2.2.get ⟨i, hr⟩
        = (save_to_excel jobs).2.1.map
            (fun c => (((jobs.get ⟨i, hi⟩).lookup c).getD ""))) ∧
    (k ∉ (jobs.get ⟨i, hi⟩).map Prod.fst → ((jobs.get ⟨i, hi⟩).lookup k) = none) := by
  have hlen : (save_to_excel jobs).2.2.length = jobs.length := by
    simp [save_to_excel]
  refine ⟨rfl, ?_, ?_, ?_, hlen, ?_, ?_⟩
  · exact List.sorted_insertionSort strLe _
  · exact ((List.perm_insertionSort strLe _).nodup_iff).mpr (List.nodup_dedup _)
  · rw [show (save_to_excel jobs).2.1
        = List.insertionSort strLe ((jobs.flatMap (fun job => job.map Prod.fst)).dedup)
      from rfl]
    rw [List.mem_insertionSort, List.mem_dedup, List.mem_flatMap]
  · refine ⟨by rw [hlen]; exact hi, ?_⟩
    exact List.get_map _
  · exact lookup_eq_none_of_not_mem_keys k (jobs.get ⟨i, hi⟩)

/-- Witness for save_to_excel_shape: two records with keys B and A,B; the
columns are A,B sorted, the first row has an empty A cell. -/
theorem save_to_excel_shape_witness :
    (save_to_excel [[("B", "1")], [("A", "2"), ("B", "3")]]).1 = "Jobs" ∧
    List.Sorted strLe (save_to_excel [[("B", "1")], [("A", "2"), ("B", "3")]]).2.1 ∧
    (save_to_excel [[("B", "1")], [("A", "2"), ("B", "3")]]).2.1.Nodup ∧
    ("A" ∈ (save_to_excel [[("B", "1")], [("A", "2"), ("B", "3")]]).2.1 ↔
      ∃ job ∈ [[("B", "1")], [("A", "2"), ("B", "3")]], "A" ∈ job.map Prod.fst) ∧
    (save_to_excel [[("B", "1")], [("A", "2"), ("B", "3")]]).2.2.length = 2 ∧
    (∃ hr : 0 < (save_to_excel [[("B", "1")], [("A", "2"), ("B", "3")]]).2.2.length,
      (save_to_excel [[("B", "1")], [("A", "2"), ("B", "3")]]).2.2.get ⟨0, hr⟩
        = (save_to_excel [[("B", "1")], [("A", "2"), ("B", "3")]]).2.1.map
            (fun c => ((List.lookup c [("B", "1")]).getD ""))) ∧
    List.lookup "A" [("B", "1")] = none := by
  obtain ⟨h1, h2, h3, h4, h5, h6, h7⟩ :=
    save_to_excel_shape [[("B", "1")], [("A", "2"), ("B", "3")]] 0 (by decide) "A"
  exact ⟨h1, h2, h3, h4, h5, h6, h7 (by decide)⟩

theorem scrapeJobsLoop_no_truncate (env : ScrapeEnv) :
    ∀ (urls : List String) (limit : Option Int) (idx : Nat),
      (∀ l, limit = some l → ((idx : Int) + urls.length ≤ l + 1)) →
      scrapeJobsLoop env limit urls idx
        = urls.map (fun url => scrape_job (env.jobEnv url) url (env.scrapedAt url)) := by
  intro urls
  induction urls with
  | nil => intro limit idx _; cases limit <;> rfl
  | cons url rest ih =>
    intro limit idx h
    cases limit with
    | none =>
      simp only [scrapeJobsLoop, List.map_cons]
      rw [ih none (idx + 1) (fun l hl => by cases hl)]
    | some l =>
      have hb : ¬ (l < (idx : Int)) := by
        have hh := h l rfl
        simp only [List.length_cons] at hh
        push_cast at hh
        omega
      simp only [scrapeJobsLoop]
      rw [if_neg hb]
      simp only [List.map_cons]
      congr 1
      refine ih (some l) (idx + 1) ?_
      intro l2 hl2
      have he : l = l2 := Option.some.inj hl2
      have hh := h l rfl
      simp only [List.length_cons] at hh
      push_cast at hh ⊢
      omega

/-- Claim C9: in JSON mode the route returns a body of shape
full_jobs.jobs / urls_only.urls where urls is exactly the output of the link
discoverer and jobs maps scrape_job over those URLs in discovery order; the
redundant limit check in the loop never truncates, because the discoverer
already returns at most limit URLs. -/
theorem scrape_json_response (env : ScrapeEnv) (limit : Option Int) :
    (scrape env limit).urls_only.urls = get_job_links env.pages limit ∧
    (scrape env limit).full_jobs.jobs
      = (get_job_links env.pages limit).map
          (fun url => scrape_job (env.jobEnv url) url (env.scrapedAt url)) := by
  refine ⟨rfl, ?_⟩
  show scrapeJobsLoop env limit (get_job_links env.pages limit) 1
    = (get_job_links env.pages limit).map
        (fun url => scrape_job (env.jobEnv url) url (env.scrapedAt url))
  cases limit with
  | none =>
    exact scrapeJobsLoop_no_truncate env _ none 1 (fun l hl => by cases hl)
  | some l =>
    by_cases h : l ≤ 0
    · rw [get_job_links_eq_nil_of_nonpos env.pages l h]
      rfl
    · apply scrapeJobsLoop_no_truncate
      intro l2 hl2
      have he : l2 = l := (Option.some.inj hl2).symm
      subst he
      have hlen : ((get_job_links env.pages (some l2)).length : Int) ≤ l2 := by
        simp only [get_job_links, if_neg h]
        refine getJobLinksLoop_length l2 env.pages [] ?_
        simp only [List.length_nil]
        push_cast
        omega
      push_cast
      omega

end PracujScraper
